import Mathlib

/-!
# Verification of the RAG pipeline core (`rag_pipeline.py`)

Shallow embedding of the retrieval-augmented-generation pipeline implemented in
`src/rag_pipeline.py` (class `RAGPipeline`), together with theorems settling the
specification claims about it.

External collaborators (the sentence-transformer embedder, the Qdrant vector
store's nearest-neighbour search, the text splitter, the PDF loader, the Whisper
transcriber and the Ollama language model) are modelled as explicit oracle
parameters: pure functions or `Except`-valued functions passed into the embedded
operations, exactly at the call sites where the Python code invokes them.
Python floats (similarity scores) are modelled as rationals `ℚ`; the claims
under study depend only on order comparisons and on Python truthiness of the
score, never on rounding.
-/

set_option autoImplicit false

namespace RAG

/-- ASCII characters matched by Python's regex class `\s`
(space, tab, newline, carriage return, vertical tab, form feed). -/
def isPySpace (c : Char) : Bool :=
  c = ' ' || c = '\t' || c = '\n' || c = '\r' || c = '\x0b' || c = '\x0c'

/-- Model of `re.sub(r"^\d+\s*", "", ·)` on a character list: if the string starts with a
digit, remove the maximal leading run of digits and then the maximal run of
whitespace that follows it; otherwise (no match of `\d+` at the start) the
string is unchanged.  This is the chunk cleanup in `RAGPipeline.chunk_text`
(line 212 of `rag_pipeline.py`). -/
def cleanChunkChars : List Char → List Char
  | [] => []
  | c :: cs =>
    if c.isDigit then ((c :: cs).dropWhile Char.isDigit).dropWhile isPySpace
    else c :: cs

/-- String version of the chunk cleanup `re.sub(r"^\d+\s*", "", chunk_text)`. -/
def cleanChunk (s : String) : String :=
  ⟨cleanChunkChars s.data⟩

/-- A chunk dictionary produced by `RAGPipeline.chunk_text`:
`{"text": ..., "source": ..., "original_index": ..., "chunk_index": ...}`. -/
structure Chunk where
  text : String
  source : String
  original_index : Nat
  chunk_index : Nat
deriving Repr, DecidableEq

/-- Embedding of `RAGPipeline.chunk_text` (lines 190–222): for each input text (in order),
split it with the text splitter, clean each split chunk, and append a chunk
dictionary recording the enclosing text's index and the chunk's index within
the split output.  The splitter (`self.text_splitter.split_text`) is an
external collaborator, passed as the function `splitter`. -/
def chunk_text (splitter : String → List String) (texts : List String)
    (source : String) : List Chunk :=
  texts.enum.foldl
    (fun all_chunks p =>
      all_chunks ++
        ((splitter p.2).enum.map fun q =>
          { text := cleanChunk q.2
            source := source
            original_index := p.1
            chunk_index := q.1 }))
    []

/-! ## Vector store and ingestion -/

/-- An indexed point as stored by `embed_and_store`: a `PointStruct` with an
integer id, the embedding vector, and the chunk's payload (the Python copies
the chunk dictionary's `text`, `source`, `original_index` and `chunk_index`
fields into the payload, so the payload is a `Chunk`). -/
structure Point where
  id : Nat
  vector : List ℚ
  payload : Chunk
deriving Repr, DecidableEq

/-- Qdrant upsert of a single point: replace the stored point carrying the same
id if one exists, otherwise insert. -/
def upsertOne (st : List Point) (p : Point) : List Point :=
  if st.any (fun q => q.id = p.id) then st.map (fun q => if q.id = p.id then p else q)
  else st ++ [p]

/-- Qdrant upsert of a batch of points (`qdrant_client.upsert`), point by point. -/
def upsert (st : List Point) (ps : List Point) : List Point :=
  ps.foldl upsertOne st

/-- The collection's `points_count`.  Stores reachable in this model keep one
entry per id (`upsertOne` replaces rather than duplicates), so the point count
is the length. -/
def points_count (st : List Point) : Nat :=
  st.length

/-- List of the point ids held in a store. -/
def idsOf (st : List Point) : List Nat :=
  st.map (·.id)

/-- The point batch built by the loop at lines 244–257 of `embed_and_store`:
`for idx, (chunk, embedding) in enumerate(zip(chunks, embeddings))`, each point
getting id `start_id + idx`. -/
def mkPoints (start_id : Nat) (chunks : List Chunk) (embeddings : List (List ℚ)) :
    List Point :=
  (chunks.zip embeddings).enum.map fun q =>
    { id := start_id + q.1, vector := q.2.2, payload := q.2.1 }

/-- Embedding of `RAGPipeline.embed_and_store` (lines 224–267): embed all chunk texts in one
batch (the external encoder `embed` may fail, modelled as `Except`), build one
`PointStruct` per `(chunk, embedding)` pair with id `start_id + idx`, upsert
the batch, and return the new store together with `start_id + len(points)`.
An encoder failure propagates before any point is stored. -/
def embed_and_store (embed : List String → Except String (List (List ℚ)))
    (chunks : List Chunk) (start_id : Nat) (st : List Point) :
    Except String (List Point × Nat) :=
  let texts := chunks.map (·.text)
  match embed texts with
  | .error e => .error e
  | .ok embeddings =>
    let points := mkPoints start_id chunks embeddings
    .ok (upsert st points, start_id + points.length)

/-- Inner recursion of `chunk_textE`: the chunking loop of
`RAGPipeline.chunk_text` over `enumerate(texts)`, with a splitter that may
fail; the first splitter failure aborts the whole chunking, as an exception
raised inside the loop would. -/
def chunkLoop (splitE : String → Except String (List String)) (source : String) :
    List (Nat × String) → Except String (List Chunk)
  | [] => .ok []
  | p :: rest =>
    match splitE p.2 with
    | .error e => .error e
    | .ok pieces =>
      match chunkLoop splitE source rest with
      | .error e => .error e
      | .ok tail =>
        .ok ((pieces.enum.map fun q =>
          { text := cleanChunk q.2
            source := source
            original_index := p.1
            chunk_index := q.1 }) ++ tail)

/-- Variant of `RAGPipeline.chunk_text` with a fallible splitter collaborator.  When the
splitter never fails this agrees with `chunk_text` (see
`chunk_textE_of_total`). -/
def chunk_textE (splitE : String → Except String (List String))
    (texts : List String) (source : String) : Except String (List Chunk) :=
  chunkLoop splitE source texts.enum

/-- Embedding of `RAGPipeline.process_pdf` (lines 269–295): extract the page texts (external
loader, `extract`), chunk them with `source` set to the file name, read the
collection's current point count as the starting id (`0` when the count is
unreadable — the bare `except` at line 289), then embed and store.  Any failure
before the upsert leaves the store untouched and propagates. -/
def process_pdf (extract : Except String (List String))
    (splitE : String → Except String (List String))
    (embed : List String → Except String (List (List ℚ)))
    (source : String) (countReadable : Bool) (st : List Point) :
    Except String Nat × List Point :=
  match extract with
  | .error e => (.error e, st)
  | .ok pdf_texts =>
    match chunk_textE splitE pdf_texts source with
    | .error e => (.error e, st)
    | .ok chunks =>
      let start_id := if countReadable then points_count st else 0
      match embed_and_store embed chunks start_id st with
      | .error e => (.error e, st)
      | .ok r => (.ok chunks.length, r.1)

/-- Embedding of `RAGPipeline.process_audio` (lines 297–323): transcribe (external,
`transcribe`), chunk the single transcript, read the point count as starting
id (`0` when unreadable), then embed and store. -/
def process_audio (transcribe : Except String String)
    (splitE : String → Except String (List String))
    (embed : List String → Except String (List (List ℚ)))
    (source : String) (countReadable : Bool) (st : List Point) :
    Except String Nat × List Point :=
  match transcribe with
  | .error e => (.error e, st)
  | .ok transcript =>
    match chunk_textE splitE [transcript] source with
    | .error e => (.error e, st)
    | .ok chunks =>
      let start_id := if countReadable then points_count st else 0
      match embed_and_store embed chunks start_id st with
      | .error e => (.error e, st)
      | .ok r => (.ok chunks.length, r.1)

/-! ## Retrieval and answer generation -/

/-- A scored point as returned by Qdrant's `query_points` (the `search_results.points`
iterated in `RAGPipeline.retrieve`).  `score` is the similarity score; the payload
may lack the `"text"`/`"source"` keys, which the Python reads with
`payload.get("text", "")` and `payload.get("source", "unknown")`. -/
structure ScoredPoint where
  score : ℚ
  payloadText : Option String
  payloadSource : Option String
deriving Repr, DecidableEq

/-- A retrieved-chunk dictionary `{"text": ..., "source": ..., "score": ...}`
built by `RAGPipeline.retrieve`. -/
structure RetrievedChunk where
  text : String
  source : String
  score : ℚ
deriving Repr, DecidableEq

/-- The dictionary `retrieve` appends for a point that passes the filter. -/
def toRetrieved (p : ScoredPoint) : RetrievedChunk :=
  { text := p.payloadText.getD ""
    source := p.payloadSource.getD "unknown"
    score := p.score }

/-- The filter condition of `RAGPipeline.retrieve` (line 351):
`if point.score and point.score >= score_threshold`.  Python truthiness of a
float makes `0.0` falsy, so the conjunct `p.score ≠ 0` is part of the test. -/
def passesFilter (score_threshold : ℚ) (p : ScoredPoint) : Bool :=
  p.score ≠ 0 && score_threshold ≤ p.score

/-- Embedding of `RAGPipeline.retrieve` (lines 325–358), from the point where the store has
answered: iterate over the search results in the store's order, appending the
points that pass the score filter.  Embedding the question and the store's
nearest-neighbour search are external; `searchPoints` is the list
`search_results.points` the store returned. -/
def retrieve (searchPoints : List ScoredPoint) (score_threshold : ℚ) :
    List RetrievedChunk :=
  searchPoints.foldl
    (fun relevant_chunks p =>
      if passesFilter score_threshold p then relevant_chunks ++ [toRetrieved p]
      else relevant_chunks)
    []

/-- One chunk's rendering inside the context block of the prompt:
`f"[Source: {chunk['source']}]\n{chunk['text']}"`. -/
def renderChunk (c : RetrievedChunk) : String :=
  "[Source: " ++ c.source ++ "]\n" ++ c.text

/-- Python's `sep.join(parts)`. -/
def pyJoin (sep : String) : List String → String
  | [] => ""
  | [s] => s
  | s :: rest => s ++ sep ++ pyJoin sep rest

/-- The fixed instruction line opening the prompt in `generate_answer`. -/
def promptHeader : String :=
  "Answer the question using the provided context. If the context does not contain relevant information, say you don't know.\n\nContext:\n"

/-- The prompt built by `RAGPipeline.generate_answer` (lines 371–385):
the instruction header, then `"\n\n".join` of the rendered chunks, then the
question and the `Answer:` cue. -/
def buildPrompt (question : String) (context_chunks : List RetrievedChunk) : String :=
  promptHeader ++ pyJoin "\n\n" (context_chunks.map renderChunk) ++
    "\n\nQuestion: " ++ question ++ "\n\nAnswer:"

/-- Embedding of `RAGPipeline.generate_answer` (lines 360–395).  The Ollama call is the
oracle `llm`; an exception from it is modelled as `.error e` and is caught,
producing the string `"Error generating answer: " ++ e`.  The second component
records the prompts actually sent to the language model, so that claims about
the model never being invoked are statable. -/
def generate_answer (llm : String → Except String String) (question : String)
    (context_chunks : List RetrievedChunk) : String × List String :=
  let prompt := buildPrompt question context_chunks
  match llm prompt with
  | .ok r => (r, [prompt])
  | .error e => ("Error generating answer: " ++ e, [prompt])

/-- The result dictionary of `RAGPipeline.query`. -/
structure QueryResult where
  answer : String
  chunks : List RetrievedChunk
  num_chunks : Nat
deriving Repr, DecidableEq

/-- The fixed answer returned when no chunk survives the filter. -/
def noInfoAnswer : String :=
  "I couldn't find any relevant information in the knowledge base to answer this question."

/-- Embedding of `RAGPipeline.query` (lines 397–430), from the point where the store has
answered the nearest-neighbour search with `searchPoints`: filter via
`retrieve`; if nothing survives, short-circuit with the fixed answer; otherwise
generate an answer from the surviving chunks.  The second component is the list
of prompts sent to the language model during the call. -/
def query (llm : String → Except String String) (searchPoints : List ScoredPoint)
    (question : String) (score_threshold : ℚ) : QueryResult × List String :=
  let chunks := retrieve searchPoints score_threshold
  if chunks.isEmpty then
    ({ answer := noInfoAnswer, chunks := [], num_chunks := 0 }, [])
  else
    let (answer, calls) := generate_answer llm question chunks
    ({ answer := answer, chunks := chunks, num_chunks := chunks.length }, calls)

/-! ## Helper lemmas -/

/-- A left fold that appends blocks is a `flatMap`. -/
theorem foldl_append_eq_flatMap {α β : Type} (f : α → List β) (l : List α)
    (init : List β) :
    l.foldl (fun acc a => acc ++ f a) init = init ++ l.flatMap f := by
  induction l generalizing init with
  | nil => simp
  | cons a l ih => simp [ih, List.append_assoc]

/-- The accumulator loop of `chunk_text` is a `flatMap` over the enumerated
input texts. -/
theorem chunk_text_eq_flatMap (splitter : String → List String)
    (texts : List String) (source : String) :
    chunk_text splitter texts source
      = texts.enum.flatMap (fun p => (splitter p.2).enum.map fun q =>
          { text := cleanChunk q.2
            source := source
            original_index := p.1
            chunk_index := q.1 }) := by
  unfold chunk_text
  rw [foldl_append_eq_flatMap]
  simp

/-- The accumulator loop of `retrieve` is a filter followed by the payload
extraction. -/
theorem retrieve_eq_filter (pts : List ScoredPoint) (t : ℚ) :
    retrieve pts t = (pts.filter (passesFilter t)).map toRetrieved := by
  have h : ∀ (l : List ScoredPoint) (acc : List RetrievedChunk),
      l.foldl (fun r p => if passesFilter t p then r ++ [toRetrieved p] else r) acc
        = acc ++ (l.filter (passesFilter t)).map toRetrieved := by
    intro l
    induction l with
    | nil => simp
    | cons p l ih =>
      intro acc
      cases hp : passesFilter t p <;>
        simp [List.filter_cons, hp, ih, List.append_assoc]
  simpa [retrieve] using h pts []

/-- Dropping along a predicate skips a prefix on which it always holds. -/
theorem dropWhile_append_all {α : Type} (p : α → Bool) (l1 l2 : List α)
    (h : ∀ c ∈ l1, p c = true) :
    (l1 ++ l2).dropWhile p = l2.dropWhile p := by
  induction l1 with
  | nil => simp
  | cons a l ih =>
    simp only [List.cons_append, List.dropWhile_cons, h a (by simp)]
    exact ih fun c hc => h c (by simp [hc])

/-- Dropping along a predicate that fails at the head drops nothing. -/
theorem dropWhile_head_false {α : Type} (p : α → Bool) (l : List α)
    (h : ∀ c ∈ l.take 1, p c = false) :
    l.dropWhile p = l := by
  cases l with
  | nil => rfl
  | cons a l => simp [List.dropWhile_cons, h a (by simp)]

/-- Characters matched by `\s` are not digits. -/
theorem isPySpace_isDigit_false {c : Char} (h : isPySpace c = true) :
    c.isDigit = false := by
  simp only [isPySpace, Bool.or_eq_true, decide_eq_true_eq] at h
  rcases h with ((((h | h) | h) | h) | h) | h <;> subst h <;> rfl

/-- The cleanup keeps a character that is neither a digit nor whitespace, so
its output on such input is non-empty. -/
theorem cleanChunkChars_ne_nil {cs : List Char} {c : Char} (hc : c ∈ cs)
    (hcd : c.isDigit = false) (hcs : isPySpace c = false) :
    cleanChunkChars cs ≠ [] := by
  cases cs with
  | nil => cases hc
  | cons a l =>
    by_cases ha : a.isDigit = true
    · simp only [cleanChunkChars, ha, if_true]
      intro hnil
      rw [List.dropWhile_eq_nil_iff] at hnil
      have hmem : c ∈ (a :: l).dropWhile Char.isDigit := by
        have hsplit := List.takeWhile_append_dropWhile Char.isDigit (a :: l)
        rw [← hsplit] at hc
        rcases List.mem_append.mp hc with h | h
        · exact absurd (List.mem_takeWhile_imp h) (by simp [hcd])
        · exact h
      have := hnil c hmem
      simp [hcs] at this
    · simp only [cleanChunkChars, ha, if_false]
      exact List.cons_ne_nil a l

/-- In the group of chunks coming from source texts enumerated from `n`
upward, no chunk carries an original index below `n`. -/
theorem flatMap_enumFrom_filter_low (splitter : String → List String)
    (source : String) (texts : List String) (n i : Nat) (h : i < n) :
    ((List.enumFrom n texts).flatMap (fun p => (splitter p.2).enum.map fun q =>
        ({ text := cleanChunk q.2
           source := source
           original_index := p.1
           chunk_index := q.1 } : Chunk))).filter (fun c => c.original_index = i)
      = [] := by
  induction texts generalizing n with
  | nil => simp
  | cons t ts ih =>
    rw [List.enumFrom_cons, List.flatMap_cons, List.filter_append]
    rw [ih (n + 1) (by omega), List.append_nil]
    rw [List.filter_eq_nil_iff]
    intro a ha
    rcases List.mem_map.mp ha with ⟨q, _, rfl⟩
    intro ha2
    simp only [decide_eq_true_eq] at ha2
    omega

/-- Filtering the flattened chunk list at original index `n + k` selects
exactly the block of chunks split from the text at position `k`. -/
theorem flatMap_enumFrom_filter_block (splitter : String → List String)
    (source : String) (texts : List String) (n k : Nat) (h : k < texts.length) :
    ((List.enumFrom n texts).flatMap (fun p => (splitter p.2).enum.map fun q =>
        ({ text := cleanChunk q.2
           source := source
           original_index := p.1
           chunk_index := q.1 } : Chunk))).filter (fun c => c.original_index = n + k)
      = (splitter (texts.get ⟨k, h⟩)).enum.map fun q =>
          ({ text := cleanChunk q.2
             source := source
             original_index := n + k
             chunk_index := q.1 } : Chunk) := by
  induction texts generalizing n k with
  | nil => simp at h
  | cons t ts ih =>
    rw [List.enumFrom_cons, List.flatMap_cons, List.filter_append]
    cases k with
    | zero =>
      rw [flatMap_enumFrom_filter_low splitter source ts (n + 1) (n + 0) (by omega)]
      rw [List.append_nil]
      have hkeep : ((splitter t).enum.map fun q =>
          ({ text := cleanChunk q.2
             source := source
             original_index := n
             chunk_index := q.1 } : Chunk)).filter
            (fun c => c.original_index = n + 0)
          = (splitter t).enum.map fun q =>
              ({ text := cleanChunk q.2
                 source := source
                 original_index := n
                 chunk_index := q.1 } : Chunk) := by
        rw [List.filter_eq_self]
        intro a ha
        rcases List.mem_map.mp ha with ⟨q, _, rfl⟩
        simp
      rw [hkeep]
      simp
    | succ m =>
      have hfirst : ((splitter t).enum.map fun q =>
          ({ text := cleanChunk q.2
             source := source
             original_index := n
             chunk_index := q.1 } : Chunk)).filter
            (fun c => c.original_index = n + (m + 1)) = [] := by
        rw [List.filter_eq_nil_iff]
        intro a ha
        rcases List.mem_map.mp ha with ⟨q, _, rfl⟩
        intro ha2
        simp only [decide_eq_true_eq] at ha2
        omega
      rw [hfirst, List.nil_append]
      have hm : m < ts.length := by simpa using h
      have hrec := ih (n + 1) m hm
      rw [show n + 1 + m = n + (m + 1) by omega] at hrec
      rw [hrec]
      simp

/-- Each part of a Python join is an infix of the joined string. -/
theorem pyJoin_infix (sep : String) (parts : List String) (s : String)
    (hs : s ∈ parts) :
    s.data <:+: (pyJoin sep parts).data := by
  induction parts with
  | nil => cases hs
  | cons a rest ih =>
    cases rest with
    | nil =>
      rcases List.mem_singleton.mp hs with rfl
      exact List.infix_refl _
    | cons b rest2 =>
      rcases List.mem_cons.mp hs with rfl | hmem
      · exact ⟨[], sep.data ++ (pyJoin sep (b :: rest2)).data, by
          simp [pyJoin, String.data_append, List.append_assoc]⟩
      · rcases ih hmem with ⟨u, v, huv⟩
        exact ⟨a.data ++ sep.data ++ u, v, by
          simp only [pyJoin, String.data_append, ← huv]
          simp [List.append_assoc]⟩

/-- Upserting a batch of points whose ids are fresh and mutually distinct is a
plain append. -/
theorem upsert_append_of_fresh : ∀ (ps st : List Point),
    (∀ p ∈ ps, p.id ∉ idsOf st) → (idsOf ps).Nodup →
    upsert st ps = st ++ ps
  | [], st, _, _ => by simp [upsert]
  | p :: ps, st, hfresh, hnodup => by
    have hconsid : idsOf (p :: ps) = p.id :: idsOf ps := rfl
    rw [hconsid, List.nodup_cons] at hnodup
    obtain ⟨hpid, hnd⟩ := hnodup
    have hany : st.any (fun q => q.id = p.id) = false := by
      rw [List.any_eq_false]
      intro q hq
      have hnotmem : p.id ∉ idsOf st := hfresh p (by simp)
      intro hEq
      simp only [decide_eq_true_eq] at hEq
      exact hnotmem (hEq ▸ List.mem_map_of_mem (·.id) hq)
    have hstep : upsertOne st p = st ++ [p] := by
      simp [upsertOne, hany]
    have hrec := upsert_append_of_fresh ps (st ++ [p])
      (by
        intro q hq
        have h1 : q.id ∉ idsOf st := hfresh q (List.mem_cons_of_mem p hq)
        have h2 : q.id ≠ p.id :=
          fun hEq => hpid (hEq ▸ List.mem_map_of_mem (·.id) hq)
        have happ : idsOf (st ++ [p]) = idsOf st ++ [p.id] := by
          simp [idsOf]
        rw [happ]
        intro hmem
        rcases List.mem_append.mp hmem with hmem | hmem
        · exact h1 hmem
        · exact h2 (List.mem_singleton.mp hmem))
      hnd
    calc upsert st (p :: ps) = upsert (upsertOne st p) ps := rfl
      _ = upsert (st ++ [p]) ps := by rw [hstep]
      _ = (st ++ [p]) ++ ps := hrec
      _ = st ++ (p :: ps) := by simp

/-- The batch built by `embed_and_store` carries the ids
`start_id, start_id + 1, …` in order. -/
theorem idsOf_mkPoints (start_id : Nat) (chunks : List Chunk)
    (embeddings : List (List ℚ)) :
    idsOf (mkPoints start_id chunks embeddings)
      = (List.range (chunks.zip embeddings).length).map (start_id + ·) := by
  simp only [idsOf, mkPoints, List.map_map]
  rw [show ((fun p : Point => p.id) ∘ fun q : Nat × (Chunk × List ℚ) =>
      ({ id := start_id + q.1, vector := q.2.2, payload := q.2.1 } : Point))
    = (fun n => start_id + n) ∘ Prod.fst from rfl]
  rw [← List.map_map, List.enum_map_fst]

/-- With a splitter that never fails, fallible chunking returns exactly the
pure `chunk_text` output. -/
theorem chunk_textE_of_total (splitter : String → List String)
    (texts : List String) (source : String) :
    chunk_textE (fun t => .ok (splitter t)) texts source
      = .ok (chunk_text splitter texts source) := by
  rw [chunk_text_eq_flatMap]
  unfold chunk_textE
  induction texts.enum with
  | nil => rfl
  | cons p rest ih => simp [chunkLoop, ih]

/-! ## Claim theorems -/

/-- C4 (counterexample): the cleanup regex `^\d+\s*` makes the whitespace
optional, so a chunk whose leading digits are not followed by whitespace loses
its digits anyway: `"12abc"` becomes `"abc"`, not `"12abc"` as the claim
requires. -/
theorem cleanup_strips_digits_without_whitespace :
    cleanChunk "12abc" = "abc" ∧ cleanChunk "12abc" ≠ "12abc" := by
  constructor
  · decide
  · decide

/-- C4 (amended): the Chunker's cleanup removes a leading run of digits
together with the (possibly empty) run of whitespace immediately following it,
and leaves a chunk unchanged exactly when it does not start with a digit, so
`"12 Introduction to..."` becomes `"Introduction to..."` and
`"Chapter 12 covers..."` is returned unchanged; but leading digits are removed
even when not followed by whitespace. -/
theorem cleanup_characterization :
    (∀ ds ws rest : List Char, ds ≠ [] → (∀ c ∈ ds, c.isDigit = true) →
      (∀ c ∈ ws, isPySpace c = true) →
      (∀ c ∈ rest.take 1, c.isDigit = false ∧ isPySpace c = false) →
      cleanChunkChars (ds ++ ws ++ rest) = rest)
    ∧ (∀ cs : List Char, (∀ c ∈ cs.take 1, c.isDigit = false) →
      cleanChunkChars cs = cs) := by
  constructor
  · intro ds ws rest hne hd hw hr
    obtain ⟨d, ds2, rfl⟩ := List.exists_cons_of_ne_nil hne
    have hd0 : d.isDigit = true := hd d (by simp)
    have hform : (d :: ds2) ++ ws ++ rest = d :: (ds2 ++ (ws ++ rest)) := by simp
    rw [hform]
    have hc : cleanChunkChars (d :: (ds2 ++ (ws ++ rest)))
        = ((d :: (ds2 ++ (ws ++ rest))).dropWhile Char.isDigit).dropWhile isPySpace := by
      simp [cleanChunkChars, hd0]
    rw [hc]
    have hdrop1 : (d :: (ds2 ++ (ws ++ rest))).dropWhile Char.isDigit
        = (ws ++ rest).dropWhile Char.isDigit := by
      rw [show d :: (ds2 ++ (ws ++ rest)) = (d :: ds2) ++ (ws ++ rest) from rfl]
      exact dropWhile_append_all _ _ _ hd
    rw [hdrop1]
    cases ws with
    | nil =>
      rw [List.nil_append,
        dropWhile_head_false Char.isDigit rest (fun c hc2 => (hr c hc2).1),
        dropWhile_head_false isPySpace rest (fun c hc2 => (hr c hc2).2)]
    | cons w ws2 =>
      have hwd : ∀ c ∈ ((w :: ws2) ++ rest).take 1, c.isDigit = false := by
        intro c hc2
        rw [List.cons_append] at hc2
        rcases List.mem_singleton.mp (by simpa using hc2) with rfl
        exact isPySpace_isDigit_false (hw c (by simp))
      rw [dropWhile_head_false Char.isDigit ((w :: ws2) ++ rest) hwd,
        dropWhile_append_all isPySpace (w :: ws2) rest hw,
        dropWhile_head_false isPySpace rest (fun c hc2 => (hr c hc2).2)]
  · intro cs hcs
    cases cs with
    | nil => rfl
    | cons a l =>
      have ha : a.isDigit = false := hcs a (by simp)
      simp [cleanChunkChars, ha]

/-- C4 (witness): the characterization applied to the spec's two examples. -/
theorem cleanup_characterization_witness :
    cleanChunkChars (['1', '2'] ++ [' '] ++ "Introduction to...".data)
      = "Introduction to...".data
    ∧ cleanChunkChars ("Chapter 12 covers...".data) = "Chapter 12 covers...".data :=
  ⟨cleanup_characterization.1 ['1', '2'] [' '] "Introduction to...".data
      (by decide) (by decide) (by decide) (by decide),
   cleanup_characterization.2 "Chapter 12 covers...".data (by decide)⟩

/-- C5 (counterexample): a split chunk consisting only of digits is cleaned to
the empty string, and the Chunker emits it anyway, so not every emitted chunk
has non-empty text. -/
theorem chunker_can_emit_empty_text :
    ¬ ∀ ch ∈ chunk_text (fun _ => ["7"]) ["7"] "doc", ch.text ≠ "" := by
  decide

/-- C5 (amended): every chunk the Chunker emits carries the cleanup of some
split chunk of some input text, and the cleanup output is non-empty whenever
the split chunk contains at least one character that is neither a digit nor
whitespace; a chunk's text can only be empty when its split chunk consisted
entirely of digits and whitespace (or was empty). -/
theorem chunk_text_nonempty_conditional :
    (∀ (splitter : String → List String) (texts : List String) (source : String)
        (ch : Chunk), ch ∈ chunk_text splitter texts source →
        ∃ t ∈ texts, ∃ piece ∈ splitter t, ch.text = cleanChunk piece)
    ∧ (∀ piece : String,
        (∃ c ∈ piece.data, c.isDigit = false ∧ isPySpace c = false) →
        cleanChunk piece ≠ "") := by
  constructor
  · intro splitter texts source ch hch
    rw [chunk_text_eq_flatMap] at hch
    rcases List.mem_flatMap.mp hch with ⟨p, hp, hmem⟩
    rcases List.mem_map.mp hmem with ⟨q, hq, rfl⟩
    obtain ⟨i, t⟩ := p
    obtain ⟨j, piece⟩ := q
    refine ⟨t, ?_, piece, ?_, rfl⟩
    · rw [List.enum_eq_enumFrom] at hp
      rcases List.mem_enumFrom hp with ⟨_, hlt, hEq⟩
      exact hEq ▸ List.getElem_mem (by omega)
    · have hq2 : (j, piece) ∈ (splitter t).enum := hq
      rw [List.enum_eq_enumFrom] at hq2
      rcases List.mem_enumFrom hq2 with ⟨_, hlt, hEq⟩
      exact hEq ▸ List.getElem_mem (by omega)
  · intro piece hex hEq
    obtain ⟨c, hc, hcd, hcs⟩ := hex
    have hnil : cleanChunkChars piece.data = [] := by
      have := congrArg String.data hEq
      simpa [cleanChunk] using this
    exact cleanChunkChars_ne_nil hc hcd hcs hnil

/-- C5 (witness): the amended statement evaluated on concrete inputs. -/
theorem chunk_text_nonempty_conditional_witness :
    (∃ t ∈ [("s" : String)], ∃ piece ∈ [t],
        ({ text := cleanChunk "s", source := "d", original_index := 0,
           chunk_index := 0 } : Chunk).text = cleanChunk piece)
    ∧ cleanChunk "7a" ≠ "" :=
  ⟨chunk_text_nonempty_conditional.1 (fun t => [t]) ["s"] "d"
      { text := cleanChunk "s", source := "d", original_index := 0, chunk_index := 0 }
      (by decide),
   chunk_text_nonempty_conditional.2 "7a" ⟨'a', by decide, by decide, by decide⟩⟩

/-- C6: the Chunker's output is exactly the concatenation, over the input
texts in order, of that text's split chunks in split order, each chunk
recording its source text's position as `original_index`; and within one
`original_index` group the `chunk_index` values are the contiguous run
`0, 1, …` in order. -/
theorem chunker_order (splitter : String → List String) (texts : List String)
    (source : String) :
    chunk_text splitter texts source
      = texts.enum.flatMap (fun p => (splitter p.2).enum.map fun q =>
          { text := cleanChunk q.2
            source := source
            original_index := p.1
            chunk_index := q.1 })
    ∧ ∀ (i : Nat) (h : i < texts.length),
        ((chunk_text splitter texts source).filter
            (fun c => c.original_index = i)).map Chunk.chunk_index
          = List.range (splitter (texts.get ⟨i, h⟩)).length := by
  refine ⟨chunk_text_eq_flatMap splitter texts source, ?_⟩
  intro i h
  rw [chunk_text_eq_flatMap, List.enum_eq_enumFrom]
  have hblk := flatMap_enumFrom_filter_block splitter source texts 0 i h
  rw [Nat.zero_add] at hblk
  rw [hblk, List.map_map]
  rw [show (Chunk.chunk_index ∘ fun q : Nat × String =>
      ({ text := cleanChunk q.2
         source := source
         original_index := i
         chunk_index := q.1 } : Chunk)) = Prod.fst from rfl]
  rw [List.enum_map_fst]

/-- C6 (witness): the contiguity part evaluated on a concrete two-text input. -/
theorem chunker_order_witness :
    ((chunk_text (fun t => [t, t ++ "!"]) ["a", "b"] "s").filter
        (fun c => c.original_index = 1)).map Chunk.chunk_index = List.range 2 :=
  (chunker_order (fun t => [t, t ++ "!"]) ["a", "b"] "s").2 1 (by decide)

/-- The rational 9/10, built in normal form so that proofs can evaluate it. -/
def score09 : ℚ := ⟨9, 10, by decide, by decide⟩

/-- The rational 1/2 in normal form. -/
def score05 : ℚ := ⟨1, 2, by decide, by decide⟩

/-- The rational 1/5 in normal form. -/
def score02 : ℚ := ⟨1, 5, by decide, by decide⟩

/-- The rational 3/10 (the default score threshold) in normal form. -/
def threshold03 : ℚ := ⟨3, 10, by decide, by decide⟩

/-- C1 (counterexample): the filter is `if point.score and point.score >= score_threshold`,
and Python truthiness makes a score of exactly `0.0` falsy, so a candidate with
score `0` is dropped even when the threshold is `0` and `0 >= 0` holds: the
output is not "exactly the results with score ≥ threshold". -/
theorem retrieve_drops_zero_score :
    retrieve [{ score := 0, payloadText := some "t", payloadSource := some "s" }] 0 = []
    ∧ ([({ score := 0, payloadText := some "t", payloadSource := some "s" } : ScoredPoint)].filter
        (fun p => 0 ≤ p.score)).map toRetrieved ≠ [] := by
  constructor
  · decide
  · decide

/-- C1 (amended): `retrieve` returns exactly the search results whose score is
truthy (non-zero) and ≥ `score_threshold`, preserving the store's order; in
particular, when the store's results are in descending-score order, so is the
output. -/
theorem retrieve_filter_characterization (pts : List ScoredPoint) (t : ℚ)
    (hsorted : List.Pairwise (fun a b : ScoredPoint => b.score ≤ a.score) pts) :
    retrieve pts t = (pts.filter (passesFilter t)).map toRetrieved
    ∧ List.Pairwise (fun a b : RetrievedChunk => b.score ≤ a.score)
        (retrieve pts t) := by
  refine ⟨retrieve_eq_filter pts t, ?_⟩
  rw [retrieve_eq_filter]
  exact List.pairwise_map.mpr
    (List.Pairwise.sublist (List.filter_sublist pts) hsorted)

/-- The spec's retrieval example: candidates scored 0.9, 0.5 and 0.2. -/
def examplePoints : List ScoredPoint :=
  [{ score := score09, payloadText := some "a", payloadSource := some "sa" },
   { score := score05, payloadText := some "b", payloadSource := some "sb" },
   { score := score02, payloadText := some "c", payloadSource := some "sc" }]

/-- C1 (witness): on candidates scored `[0.9, 0.5, 0.2]` with threshold `0.3`
the amended statement holds, and the output is exactly the first two
candidates, in order. -/
theorem retrieve_filter_characterization_witness :
    (retrieve examplePoints threshold03
        = (examplePoints.filter (passesFilter threshold03)).map toRetrieved
      ∧ List.Pairwise (fun a b : RetrievedChunk => b.score ≤ a.score)
          (retrieve examplePoints threshold03))
    ∧ retrieve examplePoints threshold03
        = [{ text := "a", source := "sa", score := score09 },
           { text := "b", source := "sb", score := score05 }] :=
  ⟨retrieve_filter_characterization examplePoints threshold03 (by decide), by decide⟩

/-- C2: when no retrieved point survives the score filter, `query` returns the
fixed "no relevant information" answer with an empty chunk list and
`num_chunks = 0`, and sends no prompt to the language model. -/
theorem query_empty_short_circuit (llm : String → Except String String)
    (pts : List ScoredPoint) (question : String) (t : ℚ)
    (h : retrieve pts t = []) :
    query llm pts question t
      = ({ answer := noInfoAnswer, chunks := [], num_chunks := 0 }, []) := by
  simp [query, h]

/-- C2 (witness): a query whose only candidate scores below the threshold. -/
theorem query_empty_short_circuit_witness :
    query (fun _ => .ok "an answer")
        [{ score := score02, payloadText := some "t", payloadSource := some "s" }]
        "q" threshold03
      = ({ answer := noInfoAnswer, chunks := [], num_chunks := 0 }, []) :=
  query_empty_short_circuit _ _ _ _ (by decide)

/-- C3: when chunks survive the filter and the language-model call fails with
cause `e`, `query` still returns a result (the failure is absorbed, not
propagated) whose answer is `"Error generating answer: " ++ e` and whose
chunks and count are the retrieved chunks and their count. -/
theorem query_absorbs_llm_failure (llm : String → Except String String)
    (pts : List ScoredPoint) (question : String) (t : ℚ) (e : String)
    (hne : retrieve pts t ≠ [])
    (hfail : llm (buildPrompt question (retrieve pts t)) = .error e) :
    query llm pts question t
      = ({ answer := "Error generating answer: " ++ e
           chunks := retrieve pts t
           num_chunks := (retrieve pts t).length },
         [buildPrompt question (retrieve pts t)]) := by
  have hemp : (retrieve pts t).isEmpty = false := by
    rw [List.isEmpty_eq_false]
    exact hne
  simp [query, generate_answer, hemp, hfail]

/-- A candidate point clearing the default threshold. -/
def goodPoint : ScoredPoint :=
  { score := score05, payloadText := some "txt", payloadSource := some "src" }

/-- C3 (witness): a failing language model on a non-empty retrieval. -/
theorem query_absorbs_llm_failure_witness :
    query (fun _ => .error "boom") [goodPoint] "q" threshold03
      = ({ answer := "Error generating answer: " ++ "boom"
           chunks := retrieve [goodPoint] threshold03
           num_chunks := (retrieve [goodPoint] threshold03).length },
         [buildPrompt "q" (retrieve [goodPoint] threshold03)]) :=
  query_absorbs_llm_failure _ _ _ _ _ (by decide) rfl

/-- C10: the query result always satisfies `num_chunks = chunks.length`, and
when the store honours its contract of returning at most `top_k` results, the
chunk count is at most `top_k`. -/
theorem query_num_chunks_invariant (llm : String → Except String String)
    (pts : List ScoredPoint) (question : String) (t : ℚ) (top_k : Nat)
    (h : pts.length ≤ top_k) :
    (query llm pts question t).1.num_chunks
      = (query llm pts question t).1.chunks.length
    ∧ (query llm pts question t).1.chunks.length ≤ top_k := by
  have hlen : (retrieve pts t).length ≤ pts.length := by
    rw [retrieve_eq_filter, List.length_map]
    exact List.length_filter_le _ _
  rcases hga : generate_answer llm question (retrieve pts t) with ⟨ans, calls⟩
  cases hB : (retrieve pts t).isEmpty with
  | true => exact ⟨by simp [query, hB], by simp [query, hB]⟩
  | false =>
    constructor
    · simp [query, hB, hga]
    · have hch : (query llm pts question t).1.chunks = retrieve pts t := by
        simp [query, hB, hga]
      rw [hch]
      exact hlen.trans h

/-- C10 (witness): a one-candidate query with `top_k = 5`. -/
theorem query_num_chunks_invariant_witness :
    (query (fun _ => .ok "a") [goodPoint] "q" threshold03).1.num_chunks
      = (query (fun _ => .ok "a") [goodPoint] "q" threshold03).1.chunks.length
    ∧ (query (fun _ => .ok "a") [goodPoint] "q" threshold03).1.chunks.length ≤ 5 :=
  query_num_chunks_invariant _ _ _ _ 5 (by decide)

/-- C7: under sequential ingestion, when the collection's ids are exactly
`0, …, count-1` and the point count is readable, a successful PDF ingestion
whose embedder returns one vector per chunk appends points with ids
`count, count+1, …` (id `start_id + position_in_batch` with
`start_id = count`), leaving the id set exactly `0, …, count+k-1`: no gaps and
no reuse. -/
theorem process_pdf_assigns_ids (extract : Except String (List String))
    (splitE : String → Except String (List String))
    (embed : List String → Except String (List (List ℚ)))
    (source : String) (st : List Point) (texts : List String)
    (chunks : List Chunk) (embs : List (List ℚ))
    (hids : idsOf st = List.range st.length)
    (hex : extract = .ok texts)
    (hch : chunk_textE splitE texts source = .ok chunks)
    (hem : embed (chunks.map (·.text)) = .ok embs)
    (hlen : embs.length = chunks.length) :
    process_pdf extract splitE embed source true st
      = (.ok chunks.length, st ++ mkPoints st.length chunks embs)
    ∧ idsOf (process_pdf extract splitE embed source true st).2
      = List.range (st.length + chunks.length) := by
  subst hex
  have hzip : (chunks.zip embs).length = chunks.length := by
    rw [List.length_zip, hlen]
    exact Nat.min_self _
  have hidsPts : idsOf (mkPoints st.length chunks embs)
      = (List.range chunks.length).map (st.length + ·) := by
    rw [idsOf_mkPoints, hzip]
  have hfresh : ∀ p ∈ mkPoints st.length chunks embs, p.id ∉ idsOf st := by
    intro p hp
    have hmem : p.id ∈ idsOf (mkPoints st.length chunks embs) :=
      List.mem_map_of_mem _ hp
    rw [hidsPts] at hmem
    rcases List.mem_map.mp hmem with ⟨n, _, hn⟩
    rw [hids, ← hn]
    intro hcontra
    rw [List.mem_range] at hcontra
    omega
  have hnodup : (idsOf (mkPoints st.length chunks embs)).Nodup := by
    rw [hidsPts]
    exact (List.nodup_range _).map (fun a b hab => by omega)
  have hupsert := upsert_append_of_fresh (mkPoints st.length chunks embs) st
    hfresh hnodup
  have hproc : process_pdf (.ok texts) splitE embed source true st
      = (.ok chunks.length, st ++ mkPoints st.length chunks embs) := by
    simp [process_pdf, hch, embed_and_store, hem, points_count, hupsert]
  refine ⟨hproc, ?_⟩
  rw [hproc]
  have happ : idsOf (st ++ mkPoints st.length chunks embs)
      = idsOf st ++ idsOf (mkPoints st.length chunks embs) := by
    simp [idsOf]
  rw [happ, hids, hidsPts, List.range_add]

/-- Extraction oracle for the 1-page document A. -/
def extractA : Except String (List String) := .ok ["pageA"]

/-- Extraction oracle for the 1-page document B. -/
def extractB : Except String (List String) := .ok ["pageB"]

/-- A splitter producing five pieces per text. -/
def splitFive : String → Except String (List String) :=
  fun t => .ok [t ++ "1", t ++ "2", t ++ "3", t ++ "4", t ++ "5"]

/-- A splitter producing three pieces per text. -/
def splitThree : String → Except String (List String) :=
  fun t => .ok [t ++ "1", t ++ "2", t ++ "3"]

/-- An embedder returning one 1-dimensional vector per input text. -/
def embedOnes : List String → Except String (List (List ℚ)) :=
  fun ts => .ok (ts.map fun _ => [1])

/-- The five chunks document A splits into. -/
def chunksA : List Chunk :=
  [{ text := "pageA1", source := "a.pdf", original_index := 0, chunk_index := 0 },
   { text := "pageA2", source := "a.pdf", original_index := 0, chunk_index := 1 },
   { text := "pageA3", source := "a.pdf", original_index := 0, chunk_index := 2 },
   { text := "pageA4", source := "a.pdf", original_index := 0, chunk_index := 3 },
   { text := "pageA5", source := "a.pdf", original_index := 0, chunk_index := 4 }]

/-- The three chunks document B splits into. -/
def chunksB : List Chunk :=
  [{ text := "pageB1", source := "b.pdf", original_index := 0, chunk_index := 0 },
   { text := "pageB2", source := "b.pdf", original_index := 0, chunk_index := 1 },
   { text := "pageB3", source := "b.pdf", original_index := 0, chunk_index := 2 }]

/-- C7 (witness): ingesting the 5-chunk document A into an empty collection
assigns ids 0–4, and ingesting the 3-chunk document B immediately after
assigns ids 5–7, so the collection holds exactly ids 0–7. -/
theorem process_pdf_assigns_ids_witness :
    idsOf (process_pdf extractA splitFive embedOnes "a.pdf" true []).2
      = List.range 5
    ∧ idsOf (process_pdf extractB splitThree embedOnes "b.pdf" true
        (process_pdf extractA splitFive embedOnes "a.pdf" true []).2).2
      = List.range 8 := by
  have h1 := (process_pdf_assigns_ids extractA splitFive embedOnes "a.pdf" []
      ["pageA"] chunksA [[1], [1], [1], [1], [1]]
      (by decide) rfl rfl rfl (by decide)).2
  have h2 := (process_pdf_assigns_ids extractB splitThree embedOnes "b.pdf"
      (process_pdf extractA splitFive embedOnes "a.pdf" true []).2
      ["pageB"] chunksB [[1], [1], [1]]
      (by decide) rfl rfl rfl (by decide)).2
  have hstA : (process_pdf extractA splitFive embedOnes "a.pdf" true
      ([] : List Point)).2.length = 5 := by decide
  constructor
  · simpa [chunksA] using h1
  · rw [hstA] at h2
    simpa [chunksB] using h2

/-- C8: the prompt sent to the language model is the fixed instruction header,
then the surviving chunks each rendered as `[Source: <source>]` + newline +
text, in retrieval order and separated by blank lines, followed by the literal
question and the answer cue; in particular each chunk's rendering occurs
verbatim inside the prompt. -/
theorem prompt_format (question : String) (chunks : List RetrievedChunk)
    (_hne : chunks ≠ []) :
    buildPrompt question chunks
      = promptHeader ++ pyJoin "\n\n" (chunks.map renderChunk)
        ++ "\n\nQuestion: " ++ question ++ "\n\nAnswer:"
    ∧ ∀ c ∈ chunks, (renderChunk c).data <:+: (buildPrompt question chunks).data := by
  refine ⟨rfl, ?_⟩
  intro c hc
  rcases pyJoin_infix "\n\n" (chunks.map renderChunk) (renderChunk c)
      (List.mem_map_of_mem renderChunk hc) with ⟨u, v, huv⟩
  refine ⟨promptHeader.data ++ u,
    v ++ ("\n\nQuestion: " ++ question ++ "\n\nAnswer:").data, ?_⟩
  simp only [buildPrompt, String.data_append, ← huv]
  simp [List.append_assoc]

/-- C8 (witness): the format statement on a one-chunk context. -/
theorem prompt_format_witness :
    buildPrompt "Q" [{ text := "T", source := "S", score := 1 }]
      = promptHeader
        ++ pyJoin "\n\n" ([({ text := "T", source := "S", score := 1 } : RetrievedChunk)].map renderChunk)
        ++ "\n\nQuestion: " ++ "Q" ++ "\n\nAnswer:"
    ∧ ∀ c ∈ [({ text := "T", source := "S", score := 1 } : RetrievedChunk)],
        (renderChunk c).data <:+: (buildPrompt "Q" [{ text := "T", source := "S", score := 1 }]).data :=
  prompt_format "Q" [{ text := "T", source := "S", score := 1 }] (by simp)

/-- C9: if any step before the batch insert fails — PDF extraction or audio
transcription, chunking, or embedding — the ingestion returns that failure and
the store is exactly what it was before the ingestion began. -/
theorem ingestion_abort_preserves_store (extract : Except String (List String))
    (transcribe : Except String String)
    (splitE : String → Except String (List String))
    (embed : List String → Except String (List (List ℚ)))
    (source : String) (countReadable : Bool) (st : List Point) :
    (∀ e, (process_pdf extract splitE embed source countReadable st).1 = .error e →
      (process_pdf extract splitE embed source countReadable st).2 = st)
    ∧ (∀ e, (process_audio transcribe splitE embed source countReadable st).1 = .error e →
      (process_audio transcribe splitE embed source countReadable st).2 = st) := by
  constructor
  · intro e hEq
    unfold process_pdf at hEq ⊢
    cases extract with
    | error e2 => simp
    | ok texts =>
      cases hch : chunk_textE splitE texts source with
      | error e2 => simp [hch]
      | ok chunks =>
        cases hes : embed_and_store embed chunks
            (if countReadable then points_count st else 0) st with
        | error e2 => simp [hch, hes]
        | ok r => simp [hch, hes] at hEq
  · intro e hEq
    unfold process_audio at hEq ⊢
    cases transcribe with
    | error e2 => simp
    | ok transcript =>
      cases hch : chunk_textE splitE [transcript] source with
      | error e2 => simp [hch]
      | ok chunks =>
        cases hes : embed_and_store embed chunks
            (if countReadable then points_count st else 0) st with
        | error e2 => simp [hch, hes]
        | ok r => simp [hch, hes] at hEq

/-- C9 (witness): a failing extraction and a failing transcription both leave
an empty store empty. -/
theorem ingestion_abort_preserves_store_witness :
    (process_pdf (.error "io failure") (fun t => .ok [t]) embedOnes
        "d.pdf" true []).2 = []
    ∧ (process_audio (.error "mic failure") (fun t => .ok [t]) embedOnes
        "a.wav" true []).2 = [] :=
  ⟨(ingestion_abort_preserves_store (.error "io failure") (.error "mic failure")
      (fun t => .ok [t]) embedOnes "d.pdf" true []).1 "io failure" rfl,
   (ingestion_abort_preserves_store (.error "io failure") (.error "mic failure")
      (fun t => .ok [t]) embedOnes "a.wav" true []).2 "mic failure" rfl⟩

end RAG
